import Mathlib

/-!
# Verification of the prom-query core

A shallow embedding of the prom-query repository (lwangrabbit/prom-query):
the value data model (`pkg/value/value.go`), the remote codec
(`remote/codec.go`), and the promql evaluator / engine
(the `promql` package in the same repository).

Float64 sample values are modelled by their 64-bit IEEE-754 bit patterns
(as `Nat`): the evaluator never performs float arithmetic, it only copies
values and compares bit patterns against the stale marker
(`math.Float64bits(v) == StaleNaN`).

Go panics (integer division by zero, `evaluator.error`) are modelled by
`Except.error`: an `Except.error` outcome of `eval`/`exec` is an escaped
panic, not an error value returned to the caller.
-/

namespace PromQuery

/-- A label: an immutable (name, value) pair of strings
(model of the `labels.Label` struct used throughout the repository). -/
structure Label where
  name : String
  value : String
deriving DecidableEq, Repr

/-- A label set, kept in the by-name-sorted order the backends return. -/
abbrev Labels := List Label

/-- Modelled from the spec: the `pkg/labels` package is not among the
given sources; per §3 a LabelSet's identity is its full sorted content, so
the 64-bit `Metric.Hash()` used by `ContainsSameLabelset` is modelled as
the label list itself (equality of hashes = equality of content). -/
def labelsKey (ls : Labels) : Labels := ls

/-- The reserved label name that stores the metric name
(constant `labels.MetricName` of the missing `pkg/labels` package). -/
def MetricName : String := "__name__"

/-- Model of `value.Point`: timestamp and a float64 value given by its
IEEE-754 bit pattern. -/
structure Point where
  T : Int
  V : Nat
deriving DecidableEq, Repr

/-- `value.NormalNaN`: the quiet NaN bit pattern (`math.NaN()`). -/
def NormalNaN : Nat := 0x7ff8000000000001

/-- `value.StaleNaN`: the signalling-NaN bit pattern reserved as the
stale marker. -/
def StaleNaN : Nat := 0x7ff0000000000002

/-- `value.IsStaleNaN`: `math.Float64bits(v) == StaleNaN`, a bit-pattern
comparison (values are modelled as bit patterns). -/
def IsStaleNaN (v : Nat) : Bool := v == StaleNaN

/-- Model of `value.Series`: a metric identity plus its data points. -/
structure Series where
  Metric : Labels
  Points : List Point
deriving DecidableEq, Repr

/-- Model of `value.Sample`: a metric identity plus a single point. -/
structure Sample where
  Metric : Labels
  point : Point
deriving DecidableEq, Repr

/-- Model of `value.Vector`. -/
abbrev Vector := List Sample

/-- Model of `value.Matrix`. -/
abbrev Matrix := List Series

/-- The map-based duplicate scan shared by `Vector.ContainsSameLabelset`
and `Matrix.ContainsSameLabelset`: walk the metrics, remembering those
seen, and report the first repeat. -/
def containsSameLabelsetLoop (seen : List Labels) : List Labels → Bool
  | [] => false
  | m :: rest =>
    if labelsKey m ∈ seen then true
    else containsSameLabelsetLoop (labelsKey m :: seen) rest

/-- `value.Vector.ContainsSameLabelset`. -/
def Vector.ContainsSameLabelset (vec : Vector) : Bool :=
  containsSameLabelsetLoop [] (vec.map (·.Metric))

/-- `value.Matrix.ContainsSameLabelset`. -/
def Matrix.ContainsSameLabelset (m : Matrix) : Bool :=
  containsSameLabelsetLoop [] (m.map (·.Metric))

/-- `value.Matrix.TotalSamples`: total number of points over all series. -/
def Matrix.TotalSamples (m : Matrix) : Nat :=
  m.foldl (fun acc s => acc + s.Points.length) 0

end PromQuery

namespace PromQuery

/-! ## The remote codec (`remote/codec.go`) -/

/-- First-character predicate of `model.IsValidMetricName`
(external `prometheus/common/model` collaborator, specified at the
interface boundary): letters, underscore or colon. -/
def isMetricNameStartChar (c : Char) : Bool :=
  (('a' ≤ c && c ≤ 'z') || ('A' ≤ c && c ≤ 'Z') || c == '_' || c == ':')

/-- Non-first characters of a metric name additionally allow digits. -/
def isMetricNameChar (c : Char) : Bool :=
  isMetricNameStartChar c || ('0' ≤ c && c ≤ '9')

/-- `model.IsValidMetricName`: nonempty, `[a-zA-Z_:][a-zA-Z0-9_:]*`. -/
def isValidMetricName (s : String) : Bool :=
  match s.toList with
  | [] => false
  | c :: rest => isMetricNameStartChar c && rest.all isMetricNameChar

/-- First-character predicate of `model.LabelName.IsValid`: letters or
underscore (no colon). -/
def isLabelNameStartChar (c : Char) : Bool :=
  (('a' ≤ c && c ≤ 'z') || ('A' ≤ c && c ≤ 'Z') || c == '_')

/-- Non-first characters of a label name additionally allow digits. -/
def isLabelNameChar (c : Char) : Bool :=
  isLabelNameStartChar c || ('0' ≤ c && c ≤ '9')

/-- `model.LabelName.IsValid`: nonempty, `[a-zA-Z_][a-zA-Z0-9_]*`. -/
def isValidLabelName (s : String) : Bool :=
  match s.toList with
  | [] => false
  | c :: rest => isLabelNameStartChar c && rest.all isLabelNameChar

/-- `model.LabelValue.IsValid` checks UTF-8 validity; Lean strings are
valid UTF-8 by construction, so this is constantly true in the model. -/
def isValidLabelValue (_ : String) : Bool := true

/-- The validation errors produced by `validateLabelsAndMetricName`. -/
inductive CodecError where
  | invalidMetricName (v : String)
  | invalidLabelName (n : String)
  | invalidLabelValue (v : String)
deriving DecidableEq, Repr

/-- `remote.validateLabelsAndMetricName`: scan the labels in order and
report the first offending one. -/
def validateLabelsAndMetricName : Labels → Option CodecError
  | [] => none
  | l :: rest =>
    if l.name == MetricName && !isValidMetricName l.value then
      some (.invalidMetricName l.value)
    else if !isValidLabelName l.name then
      some (.invalidLabelName l.name)
    else if !isValidLabelValue l.value then
      some (.invalidLabelValue l.value)
    else validateLabelsAndMetricName rest

/-- Model of `remote.concreteSeries`: validated labels plus the
`prompb.Sample` slice (a `prompb.Sample` carries the same
timestamp/value payload as a `value.Point`). -/
structure ConcreteSeries where
  labels : Labels
  samples : List Point
deriving DecidableEq, Repr

/-- Modelled from the spec: ordering of LabelSets (the `labels.Compare`
function lives in the missing `pkg/labels` package; §3 says the LabelSet
is "used both as a series identity and as a sort/merge key" over its full
sorted content, i.e. lexicographic by (name, value) pairs). -/
def labelsCmp : Labels → Labels → Ordering
  | [], [] => .eq
  | [], _ :: _ => .lt
  | _ :: _, [] => .gt
  | a :: as, b :: bs =>
    match compare a.name b.name with
    | .eq =>
      match compare a.value b.value with
      | .eq => labelsCmp as bs
      | o => o
    | o => o

/-- The comparison used to sort series `byLabel` (`codec.go`):
`labels.Compare(a.Labels(), b.Labels()) < 0` as a total preorder.
Go's `sort.Sort` guarantees only an ordered permutation; it is modelled
below by `List.insertionSort` over this preorder. -/
def byLabelLe (a b : ConcreteSeries) : Prop :=
  labelsCmp a.labels b.labels ≠ .gt

instance : DecidableRel byLabelLe := fun a b => by
  unfold byLabelLe; infer_instance

/-- Outcome of `FromInstantQueryResult` / `FromRangeQueryResult`:
the Go functions return a nil `SeriesSet`, an `errSeriesSet`, or a
`concreteSeriesSet`. -/
inductive SeriesSet where
  | nilSet
  | errSet (e : CodecError)
  | set (series : List ConcreteSeries)
deriving DecidableEq, Repr

/-- `data` / `data.result` of an instant-query response
(`InstantQueryResult` in `client.go`; both pointers may be nil). -/
structure InstantQueryResult where
  Status : String
  Result : Option (Option Vector)
deriving Repr

/-- `data` / `data.result` of a range-query response. -/
structure RangeQueryResult where
  Status : String
  Result : Option (Option Matrix)
deriving Repr

/-- The series-building loop of `FromInstantQueryResult`: each sample
becomes a one-point concrete series; the first validation failure aborts
the whole response. -/
def instantSeriesList : Vector → Except CodecError (List ConcreteSeries)
  | [] => .ok []
  | s :: rest =>
    match validateLabelsAndMetricName s.Metric with
    | some e => .error e
    | none =>
      (instantSeriesList rest).map
        (fun acc => ⟨s.Metric, [⟨s.point.T, s.point.V⟩]⟩ :: acc)

/-- The series-building loop of `FromRangeQueryResult`. The Go code
allocates `make([]prompb.Sample, len(s.Points))` — a slice already holding
`len(s.Points)` zero samples — and then appends every point to it, so the
constructed sample list is `len(s.Points)` zero samples followed by the
actual points. -/
def rangeSeriesList : Matrix → Except CodecError (List ConcreteSeries)
  | [] => .ok []
  | s :: rest =>
    match validateLabelsAndMetricName s.Metric with
    | some e => .error e
    | none =>
      (rangeSeriesList rest).map
        (fun acc =>
          ⟨s.Metric, List.replicate s.Points.length ⟨0, 0⟩ ++ s.Points⟩ :: acc)

/-- `remote.FromInstantQueryResult`. -/
def FromInstantQueryResult (res : InstantQueryResult) : SeriesSet :=
  if res.Status ≠ "success" then .nilSet
  else
    match res.Result with
    | none => .nilSet
    | some none => .nilSet
    | some (some v) =>
      match instantSeriesList v with
      | .error e => .errSet e
      | .ok series => .set (List.insertionSort byLabelLe series)

/-- `remote.FromRangeQueryResult`. -/
def FromRangeQueryResult (res : RangeQueryResult) : SeriesSet :=
  if res.Status ≠ "success" then .nilSet
  else
    match res.Result with
    | none => .nilSet
    | some none => .nilSet
    | some (some m) =>
      match rangeSeriesList m with
      | .error e => .errSet e
      | .ok series => .set (List.insertionSort byLabelLe series)

end PromQuery

namespace PromQuery

/-! ## Buffered iteration (`remote.BufferedSeriesIterator`) and the
lookback-sampling rule (`evaluator.vectorSelectorSingle`). -/

/-- Position reached by `Seek(t)` on a concrete series: index of the first
sample with timestamp ≥ t, or the length when none exists.
`concreteSeriesIterator.Seek` computes this with `sort.Search`, which
coincides with the first-index scan on ascending sample lists. -/
def seekIdx (samples : List Point) (t : Int) : Nat :=
  match samples with
  | [] => 0
  | p :: rest => if t ≤ p.T then 0 else seekIdx rest t + 1

/-- Modelled from the spec: `remote.NewBuffer` / `BufferedSeriesIterator`
is not among the given sources. Per §4.2, after a `Seek` that reached
position `i`, `PeekBack(1)` returns the most recent sample strictly
before the current position, or "not found" when none has been buffered. -/
def peekBack1 (samples : List Point) (i : Nat) : Option Point :=
  if i = 0 then none else samples[i - 1]?

/-- `evaluator.vectorSelectorSingle`: seek to `refTime`; when the seek
fails or lands strictly after `refTime`, fall back to `PeekBack(1)`
subject to the lookback window; drop stale markers. Returns the chosen
(timestamp, value) or `none`. -/
def vectorSelectorSingle (samples : List Point) (refTime lookback : Int) :
    Option (Int × Nat) :=
  let i := seekIdx samples refTime
  let chosen : Option Point :=
    match samples[i]? with
    | some p =>
      if refTime < p.T then
        match peekBack1 samples i with
        | some q => if q.T < refTime - lookback then none else some q
        | none => none
      else some p
    | none =>
      match peekBack1 samples i with
      | some q => if q.T < refTime - lookback then none else some q
      | none => none
  match chosen with
  | some p => if IsStaleNaN p.V then none else some (p.T, p.V)
  | none => none

/-- `durationSeconds`: a `time.Duration` (nanoseconds) divided by
`time.Second/time.Nanosecond`. -/
def durationSeconds (d : Int) : Int := d / 1000000000

/-- `DefaultLookbackDelta = 5 * time.Minute`, in nanoseconds. -/
def DefaultLookbackDelta : Int := 5 * 60 * 1000000000

/-- `LookbackDelta` (package variable, left at its default). -/
def LookbackDelta : Int := DefaultLookbackDelta

/-! ## The evaluator (`evaluator.eval`) and engine (`Engine.exec`). -/

/-- An escaped panic of the evaluator: `evaluator.error` panics
(`ErrTooManySamples`), and `numSteps := int((end-start)/interval) + 1`
panics with a runtime divide-by-zero when `interval = 0`. -/
inductive EvalAbort where
  | tooManySamples
  | divideByZero
deriving DecidableEq, Repr

/-- The grid of evaluation timestamps walked by
`for ts := start; ts <= end; ts += interval` (for a positive interval). -/
def grid (startT endT interval : Int) : List Int :=
  if 0 < interval ∧ startT ≤ endT then
    (List.range (((endT - startT) / interval).toNat + 1)).map
      (fun i => startT + i * interval)
  else []

/-- The evaluator state and parameters (`promql.evaluator`). -/
structure Evaluator where
  startTimestamp : Int
  endTimestamp : Int
  interval : Int
  maxSamples : Nat
deriving Repr

/-- Inner loop of `evaluator.eval` for one series: sample at every grid
timestamp; each hit is recorded as a point `(ts, v)` if the running
sample count is below `maxSamples`, and otherwise the evaluator panics
with `ErrTooManySamples`. Returns the recorded points and the updated
count. -/
def evalPointsForSeries (maxSamples : Nat) (samples : List Point)
    (lookback : Int) (cur : Nat) :
    List Int → Except EvalAbort (List Point × Nat)
  | [] => .ok ([], cur)
  | ts :: rest =>
    match vectorSelectorSingle samples ts lookback with
    | some (_, v) =>
      if cur < maxSamples then
        (evalPointsForSeries maxSamples samples lookback (cur + 1) rest).map
          (fun r => (⟨ts, v⟩ :: r.1, r.2))
      else .error .tooManySamples
    | none => evalPointsForSeries maxSamples samples lookback cur rest

/-- Outer loop of `evaluator.eval`: evaluate every series over the grid,
threading the sample count; series that end up with zero points are
dropped. -/
def evalSeriesList (maxSamples : Nat) (lookback : Int) (tss : List Int)
    (cur : Nat) : List ConcreteSeries → Except EvalAbort (Matrix × Nat)
  | [] => .ok ([], cur)
  | s :: rest =>
    match evalPointsForSeries maxSamples s.samples lookback cur tss with
    | .error e => .error e
    | .ok r =>
      match evalSeriesList maxSamples lookback tss r.2 rest with
      | .error e => .error e
      | .ok r2 =>
        .ok ((if r.1.isEmpty then r2.1 else ⟨s.labels, r.1⟩ :: r2.1), r2.2)

/-- `evaluator.eval`: computing `numSteps` divides by the interval (a Go
runtime panic when it is zero), then every series is sampled over the
grid. -/
def eval (ev : Evaluator) (series : List ConcreteSeries) :
    Except EvalAbort Matrix :=
  if ev.interval = 0 then .error .divideByZero
  else
    (evalSeriesList ev.maxSamples (durationSeconds LookbackDelta)
      (grid ev.startTimestamp ev.endTimestamp ev.interval) 0 series).map
      (·.1)

/-- Model of `remote.SelectParams`. -/
structure SelectParams where
  Query : String
  Start : Int
  End : Int
  Step : Int
deriving Repr

/-- The result values an `Engine.exec` can produce (`value.Value`). -/
inductive Value where
  | vector (v : Vector)
  | matrix (m : Matrix)
deriving DecidableEq, Repr

/-- `Engine.exec`, after series have been fetched and merged: the instant
path (`Start == End && Step == 0`) evaluates at a single timestamp with
interval 1 and forces every output point's timestamp to the evaluation
timestamp; the range path evaluates over the grid with the query step as
interval and sorts the matrix by labels. An `Except.error` outcome is an
escaped panic. -/
def exec (maxSamples : Nat) (p : SelectParams) (series : List ConcreteSeries) :
    Except EvalAbort Value :=
  if p.Start = p.End ∧ p.Step = 0 then
    (eval ⟨p.Start, p.Start, 1, maxSamples⟩ series).map
      (fun mat =>
        .vector (mat.map
          (fun s => ⟨s.Metric, ⟨p.Start, (s.Points.headD ⟨0, 0⟩).V⟩⟩)))
  else
    (eval ⟨p.Start, p.End, p.Step, maxSamples⟩ series).map
      (fun mat =>
        .matrix (List.insertionSort (fun a b => labelsCmp a.Metric b.Metric ≠ .gt) mat))

/-- Model of `value.Result` as produced by `query.Exec`. -/
structure QueryResult where
  Err : Option EvalAbort
  Value : Option Value
deriving Repr

/-- `query.Exec`: wraps `Engine.exec` into a `value.Result`. Neither
`query.Exec` nor `Engine.exec` recovers panics, so an evaluator panic
passes through as `Except.error` rather than landing in `Result.Err`. -/
def queryExec (maxSamples : Nat) (p : SelectParams)
    (series : List ConcreteSeries) : Except EvalAbort QueryResult :=
  (exec maxSamples p series).map (fun v => ⟨none, some v⟩)

end PromQuery

namespace PromQuery

/-! ## The merge layer, modelled from the spec. -/

/-- Modelled from the spec: probe of the merged-series iterator at one
timestamp (§4.3): yield the first *non-stale* sample found among the
contributing backends in configured priority order; backends without a
sample at this position, or with a stale one, serve only as fallback; if
only stale samples exist the highest-priority one is yielded. -/
def mergeProbe (contributors : List ConcreteSeries) (t : Int) : Option Point :=
  let at_ : List Point :=
    contributors.filterMap (fun c => c.samples.find? (fun p => p.T == t))
  match at_.find? (fun p => !IsStaleNaN p.V) with
  | some p => some p
  | none => at_.head?

/-- Modelled from the spec: the merged Series for one identity (§4.3) —
its sample positions are the union of the contributors' timestamps, each
resolved by the priority probe. -/
def mergeContributors (metric : Labels) (contributors : List ConcreteSeries) :
    ConcreteSeries :=
  let tss :=
    List.insertionSort (· ≤ ·)
      ((contributors.flatMap (fun c => c.samples.map (·.T))).dedup)
  ⟨metric, tss.filterMap (fun t => mergeProbe contributors t)⟩

/-- Modelled from the spec: the series the merge layer emits for one
distinct LabelSet (§4.3) — the pass-through series when a single backend
carries the identity, the priority-merged series otherwise. -/
def mergeOne (all : List ConcreteSeries) (m : Labels) : ConcreteSeries :=
  match all.filter (fun c => c.labels = m) with
  | [c] => c
  | cs => mergeContributors m cs

/-- Modelled from the spec: `remote.NewMergeQuerier`'s series set (§4.3)
is not among the given sources. For each distinct LabelSet across all
backend responses (first-appearance order of the priority-concatenated
responses), emit one series; the result is emitted sorted by LabelSet. -/
def mergeSeriesSets (backends : List (List ConcreteSeries)) :
    List ConcreteSeries :=
  (((backends.flatten.map (·.labels)).dedup).map
    (mergeOne backends.flatten)) |> List.insertionSort byLabelLe

end PromQuery

namespace PromQuery

/-! ## Concrete instances used by the claim theorems -/

/-- IEEE-754 bit pattern of the float 1.0 (an ordinary non-stale value). -/
def oneBits : Nat := 4607182418800017408

/-- A two-backend metric identity used in the merge scenarios. -/
def mUpW : Labels := [⟨"__name__", "up"⟩, ⟨"job", "node"⟩]

/-- Two overlapping backend responses carrying the same series identity
with different values at t = 1000. -/
def backendsW : List (List ConcreteSeries) :=
  [[⟨mUpW, [⟨1000, 7⟩]⟩], [⟨mUpW, [⟨1000, 8⟩]⟩]]

/-- A simple one-label metric. -/
def mJobX : Labels := [⟨"job", "x"⟩]

/-- A series with a single eligible (non-stale) point at t = 1000. -/
def oneEligibleSeries : ConcreteSeries := ⟨mJobX, [⟨1000, 7⟩]⟩

/-- The metric of the lookback / staleness scenarios. -/
def mUpOnly : Labels := [⟨"__name__", "up"⟩]

/-- A sample from a backend whose labels pass validation. -/
def validSeriesSample : Sample := ⟨mJobX, ⟨1000, 2⟩⟩

/-- An instant-query backend response with one invalid series (label name
`0bad` starts with a digit) followed by one valid series. -/
def invalidResp : InstantQueryResult :=
  ⟨"success", some (some [⟨[⟨"0bad", "x"⟩], ⟨1000, 1⟩⟩, validSeriesSample])⟩

/-- A range-query backend response with one valid series of two points. -/
def rangeRespC4 : RangeQueryResult :=
  ⟨"success", some (some [⟨mUpOnly, [⟨1000, 5⟩, ⟨1001, 6⟩]⟩])⟩

/-- A series with points at t = 900 and t = 1000. -/
def sC8 : List Point := [⟨900, 7⟩, ⟨1000, 8⟩]

/-- A series with three eligible points on the grid 0, 1, 2. -/
def threePointSeries : ConcreteSeries := ⟨mJobX, [⟨0, 5⟩, ⟨1, 6⟩, ⟨2, 7⟩]⟩

/-- A range-query backend response whose only series has an invalid
label name. -/
def invalidRangeResp : RangeQueryResult :=
  ⟨"success", some (some [⟨[⟨"0bad", "x"⟩], [⟨1000, 1⟩]⟩])⟩

/-! ## Derived measures of the evaluator -/

/-- Number of grid timestamps at which the sampling rule yields a value
for one series — the points the evaluator is obliged to record. -/
def eligibleCount (samples : List Point) (lookback : Int)
    (tss : List Int) : Nat :=
  tss.countP (fun ts => (vectorSelectorSingle samples ts lookback).isSome)

/-- Total eligible points across all series and all grid steps. -/
def totalEligible (lookback : Int) (tss : List Int) :
    List ConcreteSeries → Nat
  | [] => 0
  | s :: rest =>
    eligibleCount s.samples lookback tss + totalEligible lookback tss rest

/-! ## General helper lemmas -/

theorem except_map_eq_ok {ε α β : Type} {f : α → β} {x : Except ε α} {v : β}
    (h : x.map f = .ok v) : ∃ w, x = .ok w ∧ v = f w := by
  cases x with
  | error e => simp [Except.map] at h
  | ok w => exact ⟨w, rfl, by simpa [Except.map] using h.symm⟩

theorem containsSameLabelsetLoop_eq_false :
    ∀ (ms seen : List Labels), ms.Nodup → (∀ m ∈ ms, m ∉ seen) →
      containsSameLabelsetLoop seen ms = false
  | [], _, _, _ => rfl
  | m :: rest, seen, h, hseen => by
    have hm : m ∉ seen := hseen m (List.mem_cons_self m rest)
    simp only [containsSameLabelsetLoop, labelsKey, if_neg hm]
    exact containsSameLabelsetLoop_eq_false rest (m :: seen)
      (List.nodup_cons.mp h).2
      (fun x hx hmem => by
        rcases List.mem_cons.mp hmem with rfl | hs
        · exact (List.nodup_cons.mp h).1 hx
        · exact hseen x (List.mem_cons_of_mem m hx) hs)

theorem vector_containsSameLabelset_eq_false {vec : Vector}
    (h : (vec.map (·.Metric)).Nodup) : vec.ContainsSameLabelset = false :=
  containsSameLabelsetLoop_eq_false _ [] h (by simp)

theorem matrix_containsSameLabelset_eq_false {m : Matrix}
    (h : (m.map (·.Metric)).Nodup) : m.ContainsSameLabelset = false :=
  containsSameLabelsetLoop_eq_false _ [] h (by simp)

theorem mergeOne_labels (all : List ConcreteSeries) (m : Labels) :
    (mergeOne all m).labels = m := by
  unfold mergeOne
  cases h : all.filter (fun c => c.labels = m) with
  | nil => rfl
  | cons c tail =>
    cases tail with
    | nil =>
      have hc : c ∈ all.filter (fun c => decide (c.labels = m)) := by
        rw [h]; exact List.mem_cons_self c []
      exact of_decide_eq_true (List.mem_filter.mp hc).2
    | cons c2 tail2 => rfl

theorem mergeSeriesSets_labels_nodup (backends : List (List ConcreteSeries)) :
    ((mergeSeriesSets backends).map (·.labels)).Nodup := by
  unfold mergeSeriesSets
  have hperm := (List.perm_insertionSort byLabelLe
    (((backends.flatten.map (·.labels)).dedup).map (mergeOne backends.flatten))).map
    (fun c : ConcreteSeries => c.labels)
  rw [hperm.nodup_iff, List.map_map]
  have harg : ∀ a ∈ (backends.flatten.map (·.labels)).dedup,
      ((fun c : ConcreteSeries => c.labels) ∘ mergeOne backends.flatten) a =
      id a := fun a _ => mergeOne_labels _ a
  rw [List.map_congr_left harg, List.map_id]
  exact List.nodup_dedup _

theorem evalSeriesList_labels_sublist (maxS : Nat) (lb : Int) (tss : List Int) :
    ∀ (l : List ConcreteSeries) (cur : Nat) (mat : Matrix) (c2 : Nat),
      evalSeriesList maxS lb tss cur l = .ok (mat, c2) →
      (mat.map (·.Metric)).Sublist (l.map (·.labels))
  | [], cur, mat, c2, h => by
    simp only [evalSeriesList, Except.ok.injEq, Prod.mk.injEq] at h
    rw [← h.1]
    exact List.nil_sublist _
  | s :: rest, cur, mat, c2, h => by
    cases h1 : evalPointsForSeries maxS s.samples lb cur tss with
    | error e => simp [evalSeriesList, h1] at h
    | ok r =>
      cases h2 : evalSeriesList maxS lb tss r.2 rest with
      | error e => simp [evalSeriesList, h1, h2] at h
      | ok r2 =>
        simp only [evalSeriesList, h1, h2, Except.ok.injEq, Prod.mk.injEq] at h
        have ih := evalSeriesList_labels_sublist maxS lb tss rest r.2 r2.1 r2.2
          (by rw [h2])
        rw [← h.1]
        by_cases he : r.1.isEmpty
        · simp only [he, if_true]
          exact ih.cons s.labels
        · simp only [he, if_false, List.map_cons]
          exact ih.cons₂ s.labels

theorem eval_ok_labels_sublist {ev : Evaluator} {series : List ConcreteSeries}
    {mat : Matrix} (h : eval ev series = .ok mat) :
    (mat.map (·.Metric)).Sublist (series.map (·.labels)) := by
  unfold eval at h
  by_cases hi : ev.interval = 0
  · rw [if_pos hi] at h; exact absurd h (by simp)
  · rw [if_neg hi] at h
    obtain ⟨w, hw, hv⟩ := except_map_eq_ok h
    subst hv
    exact evalSeriesList_labels_sublist _ _ _ series 0 w.1 w.2 (by rw [hw])

end PromQuery

namespace PromQuery

/-! ## Claim theorems -/

/-- C1: for every Vector or Matrix the engine produces from the merged
series set, no two entries share an identical LabelSet, for all
combinations of (possibly overlapping) backend responses containing the
same series identity. -/
theorem merged_results_have_unique_labelsets
    (backends : List (List ConcreteSeries)) (maxS : Nat) (p : SelectParams)
    (v : Value) (h : exec maxS p (mergeSeriesSets backends) = .ok v) :
    (∀ vec, v = .vector vec → vec.ContainsSameLabelset = false) ∧
    (∀ mat, v = .matrix mat → mat.ContainsSameLabelset = false) := by
  have hnd := mergeSeriesSets_labels_nodup backends
  unfold exec at h
  by_cases hc : p.Start = p.End ∧ p.Step = 0
  · rw [if_pos hc] at h
    obtain ⟨mat, hmat, hv⟩ := except_map_eq_ok h
    subst hv
    refine ⟨fun vec hvec => ?_, fun mat' hmat' => ?_⟩
    · cases hvec
      apply vector_containsSameLabelset_eq_false
      rw [List.map_map]
      exact List.Nodup.sublist (eval_ok_labels_sublist hmat) hnd
    · cases hmat'
  · rw [if_neg hc] at h
    obtain ⟨mat, hmat, hv⟩ := except_map_eq_ok h
    subst hv
    refine ⟨fun vec hvec => ?_, fun mat' hmat' => ?_⟩
    · cases hvec
    · cases hmat'
      apply matrix_containsSameLabelset_eq_false
      have hperm := (List.perm_insertionSort
        (fun a b : Series => labelsCmp a.Metric b.Metric ≠ .gt) mat).map
        (fun s : Series => s.Metric)
      rw [hperm.nodup_iff]
      exact List.Nodup.sublist (eval_ok_labels_sublist hmat) hnd

/-- Witness for C1: two overlapping backends reporting the same identity
produce a merged instant Vector with a single entry and no duplicate
LabelSet. -/
theorem merged_results_have_unique_labelsets_witness :
    Vector.ContainsSameLabelset [⟨mUpW, ⟨1000, 7⟩⟩] = false :=
  (merged_results_have_unique_labelsets backendsW 10 ⟨"up", 1000, 1000, 0⟩
    (.vector [⟨mUpW, ⟨1000, 7⟩⟩]) (by rfl)).1 _ rfl

/-- C2 (code bug): with `maxSamples = 0` and one eligible sample, the
TooManySamples abort raised by `evaluator.error` (a Go panic) escapes
`Engine.exec` and `query.Exec` unrecovered — modelled as `Except.error` —
instead of being observable as a returned error in the `Result`. -/
theorem tooManySamples_abort_escapes_as_panic :
    queryExec 0 ⟨"up", 1000, 1000, 0⟩ [oneEligibleSeries] =
      .error .tooManySamples := by
  rfl

/-- C4 (code bug): `FromRangeQueryResult` allocates the sample slice with
`make([]prompb.Sample, len(s.Points))` and then appends, so the series it
constructs carries `len(s.Points)` extra zero samples in front of the
backend's points: the result is neither equal to the backend's points nor
ascending/timestamp-unique. -/
theorem range_codec_prepends_zero_samples :
    FromRangeQueryResult rangeRespC4 =
      .set [⟨mUpOnly, [⟨0, 0⟩, ⟨0, 0⟩, ⟨1000, 5⟩, ⟨1001, 6⟩]⟩] ∧
    ([⟨0, 0⟩, ⟨0, 0⟩, ⟨1000, 5⟩, ⟨1001, 6⟩] : List Point) ≠
      [⟨1000, 5⟩, ⟨1001, 6⟩] ∧
    ¬ List.Pairwise (fun p q : Point => p.T < q.T)
      ([⟨0, 0⟩, ⟨0, 0⟩, ⟨1000, 5⟩, ⟨1001, 6⟩] : List Point) := by
  refine ⟨rfl, by decide, by decide⟩

/-- C6: the lookback boundary is inclusive — with the default 300s window
and a single sample at t = 1000, the selector (and the whole instant
query) surfaces the sample at t = 1300 and nothing at t = 1301. -/
theorem lookback_boundary_inclusive :
    durationSeconds LookbackDelta = 300 ∧
    vectorSelectorSingle [⟨1000, oneBits⟩] 1300 300 = some (1000, oneBits) ∧
    vectorSelectorSingle [⟨1000, oneBits⟩] 1301 300 = none ∧
    exec 100 ⟨"up", 1300, 1300, 0⟩ [⟨mUpOnly, [⟨1000, oneBits⟩]⟩] =
      .ok (.vector [⟨mUpOnly, ⟨1300, oneBits⟩⟩]) ∧
    exec 100 ⟨"up", 1301, 1301, 0⟩ [⟨mUpOnly, [⟨1000, oneBits⟩]⟩] =
      .ok (.vector []) :=
  ⟨rfl, rfl, rfl, rfl, rfl⟩

/-- C7: a point carrying the stale-marker bit pattern is never surfaced:
an instant query at t = 1000 against a series whose only point is
(1000, StaleNaN) yields no sample, and stale detection is a bit-pattern
comparison that distinguishes the stale marker from the ordinary NaN. -/
theorem stale_marker_never_surfaced :
    IsStaleNaN StaleNaN = true ∧
    IsStaleNaN NormalNaN = false ∧
    StaleNaN ≠ NormalNaN ∧
    vectorSelectorSingle [⟨1000, StaleNaN⟩] 1000 300 = none ∧
    exec 100 ⟨"up", 1000, 1000, 0⟩ [⟨mUpOnly, [⟨1000, StaleNaN⟩]⟩] =
      .ok (.vector []) :=
  ⟨rfl, rfl, by decide, rfl, rfl⟩

/-- C8 counterexample: at T = 1000 over points (900, 7), (1000, 8) the
seek lands on the sample with timestamp exactly T, and the sampling rule
uses that sample directly — it does not fall back to the most recent
sample strictly before the current position as the claim states. -/
theorem seek_exact_hit_does_not_fall_back :
    seekIdx sC8 1000 = 1 ∧
    sC8[1]? = some ⟨1000, 8⟩ ∧
    peekBack1 sC8 1 = some ⟨900, 7⟩ ∧
    vectorSelectorSingle sC8 1000 300 = some (1000, 8) ∧
    vectorSelectorSingle sC8 1000 300 ≠ some (900, 7) :=
  ⟨rfl, rfl, rfl, rfl, by decide⟩

/-- C10 counterexample: a range query with step = 0 and start ≠ end is
not rejected; it reaches the range-evaluation path, whose step-count
computation `(end-start)/interval + 1` divides by zero — a Go runtime
panic, modelled as the `divideByZero` abort. -/
theorem rangeQuery_zero_step_divides_by_zero :
    ((0 : Int) ≠ 10) ∧
    exec 100 ⟨"up", 0, 10, 0⟩ [] = .error .divideByZero ∧
    queryExec 100 ⟨"up", 0, 10, 0⟩ [] = .error .divideByZero :=
  ⟨by decide, rfl, rfl⟩

/-- C3 counterexample: a backend instant response containing one series
with an invalid label name and one fully valid series is converted to an
error series set: the valid series is not used, so the failure is not
per-series. -/
theorem one_invalid_series_discards_whole_response :
    validateLabelsAndMetricName validSeriesSample.Metric = none ∧
    FromInstantQueryResult invalidResp = .errSet (.invalidLabelName "0bad") :=
  ⟨rfl, rfl⟩

end PromQuery

namespace PromQuery

/-! ## Budget lemmas -/

theorem totalSamples_eq_sum (m : Matrix) :
    m.TotalSamples = (m.map (·.Points.length)).sum := by
  have haux : ∀ (m : Matrix) (acc : Nat),
      m.foldl (fun a s => a + s.Points.length) acc =
        acc + (m.map (·.Points.length)).sum := by
    intro m
    induction m with
    | nil => simp
    | cons s rest ih =>
      intro acc
      simp only [List.foldl_cons, List.map_cons, List.sum_cons, ih]
      omega
  simpa [Matrix.TotalSamples] using haux m 0

theorem eligibleCount_nil (samples : List Point) (lb : Int) :
    eligibleCount samples lb [] = 0 := by
  simp [eligibleCount]

theorem evalPointsForSeries_ok (maxS : Nat) (samples : List Point) (lb : Int) :
    ∀ (tss : List Int) (cur : Nat),
      cur + eligibleCount samples lb tss ≤ maxS →
      ∃ pts, evalPointsForSeries maxS samples lb cur tss =
          .ok (pts, cur + eligibleCount samples lb tss) ∧
        pts.length = eligibleCount samples lb tss
  | [], cur, _ => ⟨[], by simp [evalPointsForSeries, eligibleCount_nil],
      by simp [eligibleCount_nil]⟩
  | ts :: rest, cur, h => by
    by_cases hsel : (vectorSelectorSingle samples ts lb).isSome
    · obtain ⟨p, hp⟩ := Option.isSome_iff_exists.mp hsel
      obtain ⟨t', v'⟩ := p
      have hE : eligibleCount samples lb (ts :: rest) =
          eligibleCount samples lb rest + 1 := by
        simp [eligibleCount, List.countP_cons, hsel]
      have hcur : cur < maxS := by omega
      obtain ⟨pts, hok, hlen⟩ :=
        evalPointsForSeries_ok maxS samples lb rest (cur + 1) (by omega)
      refine ⟨⟨ts, v'⟩ :: pts, ?_, ?_⟩
      · have harith : cur + 1 + eligibleCount samples lb rest =
            cur + eligibleCount samples lb (ts :: rest) := by omega
        simp only [evalPointsForSeries, hp, if_pos hcur, hok, Except.map,
          ← harith]
      · simp only [List.length_cons, hlen, hE]
    · have hnone := Option.not_isSome_iff_eq_none.mp hsel
      have hE : eligibleCount samples lb (ts :: rest) =
          eligibleCount samples lb rest := by
        simp [eligibleCount, List.countP_cons, hsel]
      obtain ⟨pts, hok, hlen⟩ :=
        evalPointsForSeries_ok maxS samples lb rest cur (by omega)
      exact ⟨pts, by simp only [evalPointsForSeries, hnone, hE]; exact hok,
        by rw [hE]; exact hlen⟩

theorem evalPointsForSeries_error (maxS : Nat) (samples : List Point)
    (lb : Int) :
    ∀ (tss : List Int) (cur : Nat), cur ≤ maxS →
      maxS < cur + eligibleCount samples lb tss →
      evalPointsForSeries maxS samples lb cur tss = .error .tooManySamples
  | [], cur, hle, hgt => by
    rw [eligibleCount_nil] at hgt; omega
  | ts :: rest, cur, hle, hgt => by
    by_cases hsel : (vectorSelectorSingle samples ts lb).isSome
    · obtain ⟨p, hp⟩ := Option.isSome_iff_exists.mp hsel
      obtain ⟨t', v'⟩ := p
      have hE : eligibleCount samples lb (ts :: rest) =
          eligibleCount samples lb rest + 1 := by
        simp [eligibleCount, List.countP_cons, hsel]
      by_cases hcur : cur < maxS
      · have ih := evalPointsForSeries_error maxS samples lb rest (cur + 1)
          (by omega) (by omega)
        simp only [evalPointsForSeries, hp, if_pos hcur, ih, Except.map]
      · simp only [evalPointsForSeries, hp, if_neg hcur]
    · have hnone := Option.not_isSome_iff_eq_none.mp hsel
      have hE : eligibleCount samples lb (ts :: rest) =
          eligibleCount samples lb rest := by
        simp [eligibleCount, List.countP_cons, hsel]
      have ih := evalPointsForSeries_error maxS samples lb rest cur hle
        (by omega)
      simp only [evalPointsForSeries, hnone]
      exact ih

theorem evalSeriesList_ok (maxS : Nat) (lb : Int) (tss : List Int) :
    ∀ (l : List ConcreteSeries) (cur : Nat),
      cur + totalEligible lb tss l ≤ maxS →
      ∃ mat, evalSeriesList maxS lb tss cur l =
          .ok (mat, cur + totalEligible lb tss l) ∧
        mat.TotalSamples = totalEligible lb tss l
  | [], cur, _ => ⟨[], by simp [evalSeriesList, totalEligible],
      by simp [totalSamples_eq_sum, totalEligible]⟩
  | s :: rest, cur, h => by
    have hsplit : totalEligible lb tss (s :: rest) =
        eligibleCount s.samples lb tss + totalEligible lb tss rest := rfl
    obtain ⟨pts, hok, hlen⟩ :=
      evalPointsForSeries_ok maxS s.samples lb tss cur (by omega)
    obtain ⟨mat, hok2, htot⟩ := evalSeriesList_ok maxS lb tss rest
      (cur + eligibleCount s.samples lb tss) (by omega)
    refine ⟨if pts.isEmpty then mat else ⟨s.labels, pts⟩ :: mat, ?_, ?_⟩
    · have harith : cur + eligibleCount s.samples lb tss +
          totalEligible lb tss rest =
          cur + totalEligible lb tss (s :: rest) := by omega
      simp only [evalSeriesList, hok, hok2, ← harith]
    · by_cases he : pts.isEmpty
      · have hzero : eligibleCount s.samples lb tss = 0 := by
          rw [← hlen, List.isEmpty_iff.mp he]; rfl
        simp only [he, if_true, htot, hsplit, hzero, Nat.zero_add]
      · rw [if_neg he, totalSamples_eq_sum, List.map_cons, List.sum_cons,
          ← totalSamples_eq_sum, hlen, htot]
        exact hsplit.symm

theorem evalSeriesList_error (maxS : Nat) (lb : Int) (tss : List Int) :
    ∀ (l : List ConcreteSeries) (cur : Nat), cur ≤ maxS →
      maxS < cur + totalEligible lb tss l →
      evalSeriesList maxS lb tss cur l = .error .tooManySamples
  | [], cur, hle, hgt => by
    simp only [totalEligible] at hgt; omega
  | s :: rest, cur, hle, hgt => by
    have hsplit : totalEligible lb tss (s :: rest) =
        eligibleCount s.samples lb tss + totalEligible lb tss rest := rfl
    by_cases h1 : maxS < cur + eligibleCount s.samples lb tss
    · have herr := evalPointsForSeries_error maxS s.samples lb tss cur hle h1
      simp only [evalSeriesList, herr]
    · have hle2 : cur + eligibleCount s.samples lb tss ≤ maxS := by omega
      obtain ⟨pts, hok, _⟩ :=
        evalPointsForSeries_ok maxS s.samples lb tss cur hle2
      have ih := evalSeriesList_error maxS lb tss rest
        (cur + eligibleCount s.samples lb tss) hle2 (by omega)
      simp only [evalSeriesList, hok, ih]

theorem eval_error_eq_tooManySamples {ev : Evaluator}
    {series : List ConcreteSeries} (hint : ev.interval ≠ 0) (e : EvalAbort)
    (h : eval ev series = .error e) : e = .tooManySamples := by
  unfold eval at h
  rw [if_neg hint] at h
  by_cases hle : totalEligible (durationSeconds LookbackDelta)
      (grid ev.startTimestamp ev.endTimestamp ev.interval) series ≤
      ev.maxSamples
  · obtain ⟨mat, hok, _⟩ := evalSeriesList_ok ev.maxSamples
      (durationSeconds LookbackDelta)
      (grid ev.startTimestamp ev.endTimestamp ev.interval) series 0
      (by omega)
    rw [hok] at h
    simp [Except.map] at h
  · have herr := evalSeriesList_error ev.maxSamples
      (durationSeconds LookbackDelta)
      (grid ev.startTimestamp ev.endTimestamp ev.interval) series 0
      (Nat.zero_le _) (by omega)
    rw [herr] at h
    simp [Except.map] at h
    exact h.symm

end PromQuery

namespace PromQuery

/-- C5: with `maxSamples = N`, a query over any grid fails with the
TooManySamples abort exactly when its total eligible points across all
series exceed N — i.e. once the (N+1)-th point would be recorded — and
otherwise succeeds with every eligible point present, so output is never
silently truncated to N points and reported as success. -/
theorem sample_budget_exact (maxS : Nat) (startT endT interval : Int)
    (series : List ConcreteSeries) (hint : interval ≠ 0) :
    (totalEligible (durationSeconds LookbackDelta)
        (grid startT endT interval) series ≤ maxS →
      ∃ mat, eval ⟨startT, endT, interval, maxS⟩ series = .ok mat ∧
        mat.TotalSamples = totalEligible (durationSeconds LookbackDelta)
          (grid startT endT interval) series) ∧
    (maxS < totalEligible (durationSeconds LookbackDelta)
        (grid startT endT interval) series →
      eval ⟨startT, endT, interval, maxS⟩ series =
        .error .tooManySamples) := by
  constructor
  · intro hle
    obtain ⟨mat, hok, htot⟩ := evalSeriesList_ok maxS
      (durationSeconds LookbackDelta) (grid startT endT interval) series 0
      (by omega)
    refine ⟨mat, ?_, htot⟩
    unfold eval
    rw [if_neg hint, hok]
    simp [Except.map]
  · intro hgt
    have herr := evalSeriesList_error maxS (durationSeconds LookbackDelta)
      (grid startT endT interval) series 0 (Nat.zero_le _) (by omega)
    unfold eval
    rw [if_neg hint, herr]
    simp [Except.map]

/-- Witness for C5: three eligible points against a budget of two abort
with TooManySamples; against a budget of three they all come through. -/
theorem sample_budget_exact_witness :
    eval ⟨0, 2, 1, 2⟩ [threePointSeries] = .error .tooManySamples ∧
    (∃ mat, eval ⟨0, 2, 1, 3⟩ [threePointSeries] = .ok mat ∧
      mat.TotalSamples = totalEligible (durationSeconds LookbackDelta)
        (grid 0 2 1) [threePointSeries]) :=
  ⟨(sample_budget_exact 2 0 2 1 [threePointSeries] (by decide)).2 (by decide),
   (sample_budget_exact 3 0 2 1 [threePointSeries] (by decide)).1 (by decide)⟩

/-- C9: every sample of the Vector returned by an instant query evaluated
at timestamp `ts` carries the point timestamp `ts`, whatever the selected
underlying sample's real timestamp was. -/
theorem instant_query_forces_timestamp (maxS : Nat) (q : String) (ts : Int)
    (series : List ConcreteSeries) (vec : Vector)
    (h : exec maxS ⟨q, ts, ts, 0⟩ series = .ok (.vector vec)) :
    ∀ s ∈ vec, s.point.T = ts := by
  unfold exec at h
  split at h
  case isFalse hn => exact absurd ⟨rfl, rfl⟩ hn
  case isTrue =>
    obtain ⟨mat, hmat, hv⟩ := except_map_eq_ok h
    injection hv with hv
    subst hv
    intro s hs
    obtain ⟨t, _, rfl⟩ := List.mem_map.mp hs
    rfl

/-- Witness for C9: the instant query at t = 1300 over a series whose
only sample is at t = 1000 returns a sample stamped 1300. -/
theorem instant_query_forces_timestamp_witness :
    (⟨mUpOnly, ⟨1300, oneBits⟩⟩ : Sample).point.T = 1300 :=
  instant_query_forces_timestamp 100 "up" 1300
    [⟨mUpOnly, [⟨1000, oneBits⟩]⟩] [⟨mUpOnly, ⟨1300, oneBits⟩⟩]
    (by rfl) _ (List.mem_singleton.mpr rfl)

/-- C10 amended: evaluation never divides by a zero step when the query
step is nonzero or start equals end (in which case step 0 selects the
instant path with interval 1); only a range query with step 0 and
start ≠ end reaches the zero division. -/
theorem nonzero_step_or_instant_never_divides_by_zero (maxS : Nat)
    (p : SelectParams) (series : List ConcreteSeries)
    (h : p.Step ≠ 0 ∨ p.Start = p.End) :
    exec maxS p series ≠ .error .divideByZero := by
  intro hc
  unfold exec at hc
  split at hc
  case isTrue hcond =>
    cases he : eval ⟨p.Start, p.Start, 1, maxS⟩ series with
    | error e =>
      rw [he] at hc
      simp only [Except.map] at hc
      injection hc with hc
      have := eval_error_eq_tooManySamples
        (show (⟨p.Start, p.Start, 1, maxS⟩ : Evaluator).interval ≠ 0 by
          simp) e he
      rw [this] at hc
      exact absurd hc (by simp)
    | ok mat =>
      rw [he] at hc
      simp [Except.map] at hc
  case isFalse hcond =>
    have hstep : p.Step ≠ 0 := by
      rcases h with hs | hse
      · exact hs
      · intro h0; exact hcond ⟨hse, h0⟩
    cases he : eval ⟨p.Start, p.End, p.Step, maxS⟩ series with
    | error e =>
      rw [he] at hc
      simp only [Except.map] at hc
      injection hc with hc
      have := eval_error_eq_tooManySamples
        (show (⟨p.Start, p.End, p.Step, maxS⟩ : Evaluator).interval ≠ 0 from
          hstep) e he
      rw [this] at hc
      exact absurd hc (by simp)
    | ok mat =>
      rw [he] at hc
      simp [Except.map] at hc

/-- Witness for C10: a range query with a nonzero step over the same
start/end interval does not hit the zero division. -/
theorem nonzero_step_never_divides_by_zero_witness :
    exec 100 ⟨"up", 0, 10, 5⟩ [] ≠ .error .divideByZero :=
  nonzero_step_or_instant_never_divides_by_zero 100 ⟨"up", 0, 10, 5⟩ []
    (Or.inl (by decide))

theorem instantSeriesList_error_of_invalid :
    ∀ (v : Vector), (∃ s ∈ v, validateLabelsAndMetricName s.Metric ≠ none) →
      ∃ e, instantSeriesList v = .error e
  | [], h => absurd h (by simp)
  | s :: rest, h => by
    cases hval : validateLabelsAndMetricName s.Metric with
    | some e => exact ⟨e, by simp [instantSeriesList, hval]⟩
    | none =>
      obtain ⟨x, hx, hxv⟩ := h
      rcases List.mem_cons.mp hx with rfl | hxr
      · exact absurd hval hxv
      · obtain ⟨e, herr⟩ :=
          instantSeriesList_error_of_invalid rest ⟨x, hxr, hxv⟩
        exact ⟨e, by simp [instantSeriesList, hval, herr, Except.map]⟩

theorem rangeSeriesList_error_of_invalid :
    ∀ (m : Matrix), (∃ s ∈ m, validateLabelsAndMetricName s.Metric ≠ none) →
      ∃ e, rangeSeriesList m = .error e
  | [], h => absurd h (by simp)
  | s :: rest, h => by
    cases hval : validateLabelsAndMetricName s.Metric with
    | some e => exact ⟨e, by simp [rangeSeriesList, hval]⟩
    | none =>
      obtain ⟨x, hx, hxv⟩ := h
      rcases List.mem_cons.mp hx with rfl | hxr
      · exact absurd hval hxv
      · obtain ⟨e, herr⟩ :=
          rangeSeriesList_error_of_invalid rest ⟨x, hxr, hxv⟩
        exact ⟨e, by simp [rangeSeriesList, hval, herr, Except.map]⟩

/-- C3 amended: a label/metric-name validation failure in any series of a
backend's response causes the codec to discard that backend's entire
response, replacing it with an error series set — no series of that
backend (valid ones included) are used. -/
theorem invalid_series_discards_backend_response (v : Vector) (m : Matrix)
    (hv : ∃ s ∈ v, validateLabelsAndMetricName s.Metric ≠ none)
    (hm : ∃ s ∈ m, validateLabelsAndMetricName s.Metric ≠ none) :
    (∃ e, FromInstantQueryResult ⟨"success", some (some v)⟩ = .errSet e) ∧
    (∃ e, FromRangeQueryResult ⟨"success", some (some m)⟩ = .errSet e) := by
  obtain ⟨e1, he1⟩ := instantSeriesList_error_of_invalid v hv
  obtain ⟨e2, he2⟩ := rangeSeriesList_error_of_invalid m hm
  constructor
  · exact ⟨e1, by simp [FromInstantQueryResult, he1]⟩
  · exact ⟨e2, by simp [FromRangeQueryResult, he2]⟩

/-- Witness for C3: a response holding one invalid and one valid series
is discarded whole, for both the instant and the range codec. -/
theorem invalid_series_discards_backend_response_witness :
    (∃ e, FromInstantQueryResult invalidResp = .errSet e) ∧
    (∃ e, FromRangeQueryResult invalidRangeResp = .errSet e) :=
  invalid_series_discards_backend_response
    [⟨[⟨"0bad", "x"⟩], ⟨1000, 1⟩⟩, validSeriesSample]
    [⟨[⟨"0bad", "x"⟩], [⟨1000, 1⟩]⟩]
    ⟨⟨[⟨"0bad", "x"⟩], ⟨1000, 1⟩⟩, by simp, by decide⟩
    ⟨⟨[⟨"0bad", "x"⟩], [⟨1000, 1⟩]⟩, by simp, by decide⟩

end PromQuery

namespace PromQuery

/-! ## Seek lemmas (sorted series) -/

theorem seekIdx_le_length : ∀ (samples : List Point) (t : Int),
    seekIdx samples t ≤ samples.length
  | [], _ => Nat.le_refl 0
  | p :: rest, t => by
    unfold seekIdx
    by_cases h : t ≤ p.T
    · rw [if_pos h]; exact Nat.zero_le _
    · rw [if_neg h]
      exact Nat.succ_le_succ (seekIdx_le_length rest t)

theorem seekIdx_found_ge : ∀ (samples : List Point) (t : Int) (q : Point),
    samples[seekIdx samples t]? = some q → t ≤ q.T
  | [], t, q, h => by simp [seekIdx] at h
  | p :: rest, t, q, h => by
    unfold seekIdx at h
    by_cases ht : t ≤ p.T
    · rw [if_pos ht] at h
      simp only [List.getElem?_cons_zero, Option.some.injEq] at h
      exact h ▸ ht
    · rw [if_neg ht, List.getElem?_cons_succ] at h
      exact seekIdx_found_ge rest t q h

theorem seekIdx_exact_hit : ∀ (samples : List Point) (t : Int),
    List.Pairwise (fun p q : Point => p.T < q.T) samples →
    ∀ p ∈ samples, p.T = t → samples[seekIdx samples t]? = some p
  | [], t, _, p, hp, _ => absurd hp (List.not_mem_nil p)
  | q :: rest, t, hsort, p, hp, hT => by
    unfold seekIdx
    by_cases ht : t ≤ q.T
    · rw [if_pos ht]
      simp only [List.getElem?_cons_zero, Option.some.injEq]
      rcases List.mem_cons.mp hp with rfl | hpr
      · rfl
      · have := (List.pairwise_cons.mp hsort).1 p hpr
        omega
    · rw [if_neg ht, List.getElem?_cons_succ]
      rcases List.mem_cons.mp hp with rfl | hpr
      · omega
      · exact seekIdx_exact_hit rest t (List.pairwise_cons.mp hsort).2 p hpr hT

theorem take_seekIdx_eq_filter : ∀ (samples : List Point) (t : Int),
    List.Pairwise (fun p q : Point => p.T < q.T) samples →
    samples.take (seekIdx samples t) =
      samples.filter (fun p => p.T < t)
  | [], _, _ => rfl
  | q :: rest, t, hsort => by
    unfold seekIdx
    by_cases ht : t ≤ q.T
    · rw [if_pos ht, List.take_zero]
      symm
      rw [List.filter_eq_nil_iff]
      intro a ha
      rcases List.mem_cons.mp ha with rfl | har
      · simp; omega
      · have := (List.pairwise_cons.mp hsort).1 a har
        simp; omega
    · rw [if_neg ht, List.take_succ_cons]
      have hq : q.T < t := by omega
      simp only [List.filter_cons, hq, decide_true_eq_true, if_true]
      exact congrArg (q :: ·)
        (take_seekIdx_eq_filter rest t (List.pairwise_cons.mp hsort).2)

theorem peekBack1_eq_take_getLast (samples : List Point) (i : Nat)
    (hle : i ≤ samples.length) :
    peekBack1 samples i = (samples.take i).getLast? := by
  unfold peekBack1
  by_cases h0 : i = 0
  · subst h0; simp
  · rw [if_neg h0, List.getLast?_eq_getElem?, List.length_take,
      Nat.min_eq_left hle, List.getElem?_take]
    rw [if_pos (Nat.sub_lt (Nat.pos_of_ne_zero h0) Nat.one_pos)]

/-- C8 amended: the rule falls back to the most recent sample strictly
before T only when the seek fails or lands strictly after T — a sample
found exactly at T is used directly; the fallback is usable only when its
timestamp is at least T minus the lookback window (inclusive), and stale
markers are dropped in both cases. -/
theorem lookback_sampling_rule_characterization (samples : List Point)
    (T lb : Int)
    (hsort : List.Pairwise (fun p q : Point => p.T < q.T) samples) :
    (∀ p ∈ samples, p.T = T →
      vectorSelectorSingle samples T lb =
        if IsStaleNaN p.V then none else some (p.T, p.V)) ∧
    ((∀ p ∈ samples, p.T ≠ T) →
      vectorSelectorSingle samples T lb =
        match (samples.filter (fun p => p.T < T)).getLast? with
        | some q =>
          if q.T < T - lb then none
          else if IsStaleNaN q.V then none else some (q.T, q.V)
        | none => none) := by
  constructor
  · intro p hp hT
    have hfound := seekIdx_exact_hit samples T hsort p hp hT
    simp only [vectorSelectorSingle, hfound]
    rw [if_neg (show ¬ T < p.T by omega)]
  · intro hno
    have hpb : peekBack1 samples (seekIdx samples T) =
        (samples.filter (fun p => p.T < T)).getLast? := by
      rw [peekBack1_eq_take_getLast samples _ (seekIdx_le_length samples T),
        take_seekIdx_eq_filter samples T hsort]
    cases hfound : samples[seekIdx samples T]? with
    | none =>
      simp only [vectorSelectorSingle, hfound, hpb]
      cases hlast : (samples.filter (fun p => p.T < T)).getLast? with
      | none => rfl
      | some q =>
        dsimp only
        by_cases hw : q.T < T - lb
        · simp only [if_pos hw]
        · simp only [if_neg hw]
    | some q =>
      have hqT : T ≤ q.T := seekIdx_found_ge samples T q hfound
      have hmem : q ∈ samples := List.getElem?_mem hfound
      have hlt : T < q.T := lt_of_le_of_ne hqT (Ne.symm (hno q hmem))
      simp only [vectorSelectorSingle, hfound, if_pos hlt, hpb]
      cases hlast : (samples.filter (fun p => p.T < T)).getLast? with
      | none => rfl
      | some q' =>
        dsimp only
        by_cases hw : q'.T < T - lb
        · simp only [if_pos hw]
        · simp only [if_neg hw]

/-- Witness for the amended C8: on the series (900, 7), (1000, 8) the
exact hit at T = 1000 is used directly. -/
theorem lookback_sampling_rule_characterization_witness :
    vectorSelectorSingle sC8 1000 300 =
      if IsStaleNaN (8 : Nat) then none else some ((1000 : Int), (8 : Nat)) :=
  (lookback_sampling_rule_characterization sC8 1000 300 (by decide)).1
    ⟨1000, 8⟩ (by decide) rfl

end PromQuery
